import Mathlib

/-!
Shallow embedding of `src/scope.ts` (FliteScript): the lexical scope tree,
value/type symbol tables, fresh type-variable allocation, the key-normalizing
`Substitution` store, and the scope dumper.

Scope objects are mutable and mutually linked (parent/children) in the source,
so the embedding uses an arena: a `CompilerState` holds the list of all scope
records, and a scope is referred to by its index (`Nat`).  The module-level
mutable counter record `nameIds` is part of the same state.  Operations that
mutate state are `CompilerState → CompilerState × α`; operations that `throw`
return `CompilerState × Except String α` (JavaScript exceptions do not roll
back heap writes, so the state component is always the post-call heap).
-/

namespace FliteScript

/-- Modelled from the spec: the `NativeType` kinds from the external
`nodes.ts` (not in `src/`): `string`, `number`, `boolean`. -/
inductive NativeKind where
  | string
  | number
  | boolean
deriving DecidableEq, Repr

/-- The table key / `kind` string for a native kind. -/
def NativeKind.toKey : NativeKind → String
  | .string => "string"
  | .number => "number"
  | .boolean => "boolean"

/-- Modelled from the spec: the `TypeExpression` tagged union from the
external `nodes.ts` (not in `src/`).  The variants relevant to this core:
`NativeType` carries a `kind` and no `name`; `InferenceRequired` (a type
variable) carries a `name`. -/
inductive TypeExpression where
  | nativeType (kind : NativeKind)
  | inferenceRequired (name : String)
deriving DecidableEq, Repr

/-- `_getTypeExpressionName` from `scope.ts`: returns the `name` field when
the expression has one (`"name" in typeExpression`), else `undefined`. -/
def getTypeExpressionName : TypeExpression → Option String
  | .nativeType _ => none
  | .inferenceRequired name => some name

/-- A key passed to the `Substitution` / plain-`Map` methods: the source
signature is `string | ConstraintType` (where `ConstraintType = TypeExpression`). -/
inductive SKey where
  | str (s : String)
  | texpr (t : TypeExpression)
deriving DecidableEq, Repr

/-- The `finalKey` computation shared by `Substitution.set/get/has`:
a string key is used directly, a `TypeExpression` key is reduced to its
`name`.  The source then guards with `if (!finalKey)`, and in JavaScript both
`undefined` and the empty string are falsy, so an empty-string key (or an
expression whose name is `""`) is also rejected. -/
def normalizeKey (key : SKey) : Option String :=
  let finalKey : Option String :=
    match key with
    | .str s => some s
    | .texpr t => getTypeExpressionName t
  match finalKey with
  | some s => if s = "" then none else some s
  | none => none

/-- Association-list lookup, modelling both `Map.get` and indexing a plain
JavaScript object (`scope.value[name]`). -/
def assocGet (k : String) : List (String × α) → Option α
  | [] => none
  | (k', v) :: rest => if k' = k then some v else assocGet k rest

/-- Association-list insert/overwrite, modelling both `Map.set` and property
assignment on a plain object: an existing entry keeps its position, a new
entry is appended. -/
def assocSet (k : String) (v : α) : List (String × α) → List (String × α)
  | [] => [(k, v)]
  | (k', v') :: rest => if k' = k then (k, v) :: rest else (k', v') :: assocSet k v rest

/-- Property names a plain object literal (`{}`) inherits from
`Object.prototype`; JavaScript's `in` operator and property reads see these
even on an empty table.  The last five are the Annex-B legacy accessors,
present in Node and every browser. -/
def objectPrototypeKeys : List String :=
  ["constructor", "hasOwnProperty", "isPrototypeOf", "propertyIsEnumerable",
   "toLocaleString", "toString", "valueOf",
   "__proto__", "__defineGetter__", "__defineSetter__",
   "__lookupGetter__", "__lookupSetter__"]

/-- What reading `obj[name]` off a plain-object table can produce: a symbol
the program stored, or a member inherited from `Object.prototype` (a host
function or object — truthy, but not a symbol; the source's `as ValueSymbol`
cast hides this case from the type checker). -/
inductive JsValue (α : Type) where
  | symbol (sym : α)
  | protoMember (name : String)
deriving DecidableEq, Repr

/-- JavaScript's `name in obj` on a plain-object table: true for an own
entry or for an inherited `Object.prototype` member. -/
def jsIn (name : String) (l : List (String × α)) : Bool :=
  (assocGet name l).isSome || objectPrototypeKeys.contains name

/-- The property read `obj[name]`, performed by the source only after the
`in` test succeeded: the own entry when present, else the inherited member. -/
def jsRead (name : String) (l : List (String × α)) : JsValue α :=
  match assocGet name l with
  | some sym => .symbol sym
  | none => .protoMember name

/-- The `Substitution` class from `scope.ts`: a `Map<string, ConstraintType>`
whose `set`/`get`/`has` normalize a `TypeExpression` key down to its name. -/
structure Substitution where
  entries : List (String × TypeExpression)
deriving DecidableEq, Repr

def Substitution.empty : Substitution := ⟨[]⟩

/-- `Substitution.set`: normalizes the key; on an unusable key it only logs a
diagnostic (`console.log`, a side effect outside this model) and returns the
map unchanged. -/
def Substitution.set (m : Substitution) (key : SKey) (value : TypeExpression) : Substitution :=
  match normalizeKey key with
  | none => m
  | some finalKey => ⟨assocSet finalKey value m.entries⟩

/-- `Substitution.get`: normalizes the key; unusable keys read as `undefined`. -/
def Substitution.get (m : Substitution) (key : SKey) : Option TypeExpression :=
  match normalizeKey key with
  | none => none
  | some finalKey => assocGet finalKey m.entries

/-- `Substitution.has`: normalizes the key; unusable keys report `false`. -/
def Substitution.has (m : Substitution) (key : SKey) : Bool :=
  match normalizeKey key with
  | none => false
  | some finalKey => (assocGet finalKey m.entries).isSome

/-- A plain JavaScript `Map` over the same key universe, as instantiated by
`createRootScope`/`createScope` (`substitutions: new Map()`): no key
normalization at all.  JavaScript compares object keys by reference; this
model compares them structurally, which is only ever used here to separate
string keys from object keys (the two can never be equal under either
discipline). -/
structure PlainMap where
  entries : List (SKey × TypeExpression)
deriving DecidableEq, Repr

def PlainMap.empty : PlainMap := ⟨[]⟩

def plainAssocSet (k : SKey) (v : TypeExpression) :
    List (SKey × TypeExpression) → List (SKey × TypeExpression)
  | [] => [(k, v)]
  | (k', v') :: rest => if k' = k then (k, v) :: rest else (k', v') :: plainAssocSet k v rest

def plainAssocGet (k : SKey) : List (SKey × TypeExpression) → Option TypeExpression
  | [] => none
  | (k', v) :: rest => if k' = k then some v else plainAssocGet k rest

/-- `Map.prototype.set` on the plain map: stores under the key as given. -/
def PlainMap.set (m : PlainMap) (k : SKey) (v : TypeExpression) : PlainMap :=
  ⟨plainAssocSet k v m.entries⟩

/-- `Map.prototype.get` on the plain map. -/
def PlainMap.get (m : PlainMap) (k : SKey) : Option TypeExpression :=
  plainAssocGet k m.entries

/-- `ValueSymbol` from `scope.ts`; the `scope` back-reference is the arena
index of the owning scope. -/
structure ValueSymbol where
  name : String
  type : TypeExpression
  scope : Nat
deriving DecidableEq, Repr

/-- `TypeSymbol` from `scope.ts`.  `createTypeSymbol`'s `type` parameter is
optional (`type?: TypeExpression`), so the stored type may be absent. -/
structure TypeSymbol where
  name : String
  type : Option TypeExpression
  scope : Nat
deriving DecidableEq, Repr

/-- One `Scope` record.  `parent` and `children` hold arena indices. -/
structure ScopeData where
  value : List (String × ValueSymbol)
  type : List (String × TypeSymbol)
  children : List Nat
  parent : Option Nat
  constraints : List (TypeExpression × TypeExpression)
  substitutions : PlainMap
deriving DecidableEq, Repr

/-- The module-level `nameIds` record (`let nameIds = { t: 0, fn: 0 }`). -/
structure NameIds where
  t : Nat
  fn : Nat
deriving DecidableEq, Repr

/-- The allocator's prefix selector, the source literal union `"t" | "fn"`. -/
inductive PrefixKind where
  | t
  | fn
deriving DecidableEq, Repr

def PrefixKind.str : PrefixKind → String
  | .t => "t"
  | .fn => "fn"

def NameIds.read (c : NameIds) : PrefixKind → Nat
  | .t => c.t
  | .fn => c.fn

def NameIds.bump (c : NameIds) : PrefixKind → NameIds
  | .t => { c with t := c.t + 1 }
  | .fn => { c with fn := c.fn + 1 }

/-- The whole mutable state of the module: the arena of scope objects plus
the allocator counters. -/
structure CompilerState where
  scopes : List ScopeData
  nameIds : NameIds
deriving DecidableEq, Repr

/-- The state at module load: no scope objects, both counters at 0. -/
def initialState : CompilerState := ⟨[], ⟨0, 0⟩⟩

/-- In-place update of one scope object (a heap write through a reference). -/
def updateScope (st : CompilerState) (sid : Nat) (f : ScopeData → ScopeData) : CompilerState :=
  match st.scopes[sid]? with
  | some sd => { st with scopes := st.scopes.set sid (f sd) }
  | none => st

/-- `createNativeTypeSymbol` from `scope.ts`. -/
def createNativeTypeSymbol (name : NativeKind) (scope : Nat) : TypeSymbol :=
  { name := name.toKey, scope := scope, type := some (.nativeType name) }

/-- `createRootScope` from `scope.ts`: allocates a parentless scope, seeds its
type table with the three native types, and leaves everything else empty.
Note the source sets `substitutions: new Map()` — a plain `Map`, not a
`Substitution` instance, although the `Scope` type declares the field as
`Substitution`. -/
def createRootScope (st : CompilerState) : CompilerState × Nat :=
  let sid := st.scopes.length
  let rootScope : ScopeData :=
    { parent := none
      children := []
      value := []
      type :=
        [("string", createNativeTypeSymbol .string sid),
         ("number", createNativeTypeSymbol .number sid),
         ("boolean", createNativeTypeSymbol .boolean sid)]
      constraints := []
      substitutions := PlainMap.empty }
  ({ st with scopes := st.scopes ++ [rootScope] }, sid)

/-- `createScope` from `scope.ts`: builds an empty scope (again with
`substitutions: new Map()`); when a parent is supplied, records the parent
link and appends the new scope to the parent's `children`. -/
def createScope (parent : Option Nat) (st : CompilerState) : CompilerState × Nat :=
  let sid := st.scopes.length
  let scope : ScopeData :=
    { children := []
      parent := parent
      type := []
      value := []
      constraints := []
      substitutions := PlainMap.empty }
  let st' := { st with scopes := st.scopes ++ [scope] }
  match parent with
  | some p => (updateScope st' p (fun pd => { pd with children := pd.children ++ [sid] }), sid)
  | none => (st', sid)

/-- `findValueSymbol` recursion with explicit fuel, over the scope arena.
The membership test is JavaScript's `in` (`name in scope.value`), which also
sees properties inherited from `Object.prototype`; on a hit the source
returns the read `scope.value[name]` (the own entry, else the inherited
member, cast `as ValueSymbol`).  The source recurses up the `parent` chain;
on any state built by this API the parent's index is strictly below the
child's, so `scopes.length` fuel always suffices. -/
def findValueSymbolFuel (scopes : List ScopeData) :
    Nat → String → Nat → Option (JsValue ValueSymbol)
  | 0, _, _ => none
  | fuel + 1, name, sid =>
    match scopes[sid]? with
    | none => none
    | some sd =>
      if jsIn name sd.value then some (jsRead name sd.value)
      else
        match sd.parent with
        | some p => findValueSymbolFuel scopes fuel name p
        | none => none

/-- `findValueSymbol` from `scope.ts`: `if (name in scope.value)` return the
property read, else the parent chain, else `undefined`. -/
def findValueSymbol (name : String) (sid : Nat) (st : CompilerState) :
    Option (JsValue ValueSymbol) :=
  findValueSymbolFuel st.scopes st.scopes.length name sid

/-- `findTypeSymbol` recursion with explicit fuel (same shape as the value
lookup, `in` semantics included, over the type namespace). -/
def findTypeSymbolFuel (scopes : List ScopeData) :
    Nat → String → Nat → Option (JsValue TypeSymbol)
  | 0, _, _ => none
  | fuel + 1, name, sid =>
    match scopes[sid]? with
    | none => none
    | some sd =>
      if jsIn name sd.type then some (jsRead name sd.type)
      else
        match sd.parent with
        | some p => findTypeSymbolFuel scopes fuel name p
        | none => none

/-- `findTypeSymbol` from `scope.ts`. -/
def findTypeSymbol (name : String) (sid : Nat) (st : CompilerState) :
    Option (JsValue TypeSymbol) :=
  findTypeSymbolFuel st.scopes st.scopes.length name sid

/-- `createValueSymbol` from `scope.ts`: lexical lookup first; any truthy
result (a stored symbol, or an inherited `Object.prototype` member the `in`
test let through) throws `Cannot redeclare variable "name"`, otherwise the
new symbol is stored in the target scope's own `value` table. -/
def createValueSymbol (name : String) (sid : Nat) (type : TypeExpression)
    (st : CompilerState) : CompilerState × Except String ValueSymbol :=
  match findValueSymbol name sid st with
  | some _ => (st, .error ("Cannot redeclare variable \"" ++ name ++ "\""))
  | none =>
    let symbol : ValueSymbol := { name := name, type := type, scope := sid }
    (updateScope st sid (fun sd => { sd with value := assocSet name symbol sd.value }), .ok symbol)

/-- `createTypeSymbol` from `scope.ts`: same contract over the type
namespace; the `type` argument is optional in the source. -/
def createTypeSymbol (name : String) (sid : Nat) (type : Option TypeExpression)
    (st : CompilerState) : CompilerState × Except String TypeSymbol :=
  match findTypeSymbol name sid st with
  | some _ => (st, .error ("Cannot redeclare variable \"" ++ name ++ "\""))
  | none =>
    let symbol : TypeSymbol := { name := name, type := type, scope := sid }
    (updateScope st sid (fun sd => { sd with type := assocSet name symbol sd.type }), .ok symbol)

/-- `findAvailableName` from `scope.ts`: renders `` `${prefix}${nameIds[prefix]}` ``
(decimal, as JavaScript renders integers) and post-increments that counter. -/
def findAvailableName (pfx : PrefixKind) (st : CompilerState) : CompilerState × String :=
  let name := pfx.str ++ Nat.repr (st.nameIds.read pfx)
  ({ st with nameIds := st.nameIds.bump pfx }, name)

/-- `createTypeVariable` from `scope.ts`: takes a fresh `"t"`-name (the
counter advances before the declaration is attempted), builds an
`InferenceRequired` expression with that name, registers it via
`createTypeSymbol` (which may throw), and returns the expression. -/
def createTypeVariable (sid : Nat) (st : CompilerState) :
    CompilerState × Except String TypeExpression :=
  let (st', name) := findAvailableName .t st
  let typeExpr : TypeExpression := .inferenceRequired name
  let (st'', res) := createTypeSymbol name sid (some typeExpr) st'
  (st'', res.map (fun _ => typeExpr))

/-- Modelled from the spec: `dumpNode` from the external `ast.ts` (not in
`src/`) serializes a type expression into a plain inspectable value; here a
string rendering of the variant and its payload. -/
def dumpNode : TypeExpression → String
  | .nativeType kind => "NativeType:" ++ kind.toKey
  | .inferenceRequired name => "InferenceRequired:" ++ name

/-- Rendering of a possibly-absent stored type (`createTypeSymbol` may store
`undefined`). -/
def dumpNodeOpt : Option TypeExpression → String
  | some t => dumpNode t
  | none => "undefined"

/-- `Object.entries` applied to a `Map` instance, as `dumpScope` does for
`scope.substitutions`: it returns the object's own enumerable string-keyed
properties, and a `Map` keeps its entries in internal slots, not as
properties — so the result is always empty, whatever the map holds. -/
def objectEntriesOfMap (_m : PlainMap) : List (String × TypeExpression) := []

/-- The serialized form of one symbol produced by `dumpScope` (name,
serialized type, `"[omitted]"` scope placeholder). -/
structure DumpedSymbol where
  name : String
  type : String
  scope : String
deriving DecidableEq, Repr

/-- The plain tree `dumpScope` produces for one scope. -/
inductive DumpedScope where
  | mk (parent : String)
       (value : List (String × DumpedSymbol))
       (type : List (String × DumpedSymbol))
       (constraints : List (String × String))
       (substitutions : List (String × String))
       (children : List DumpedScope)

def DumpedScope.substitutions : DumpedScope → List (String × String)
  | .mk _ _ _ _ s _ => s

/-- `dumpScope` from `scope.ts` for a single scope, with fuel for the
recursion over `children` (children created by this API always have larger
arena indices, so `st.scopes.length` fuel suffices).  The parent is rendered
as a placeholder only; value and type tables entry-wise; constraints
pair-wise; the substitutions via `Object.entries` on the `Map`. -/
def dumpScopeFuel (st : CompilerState) : Nat → Nat → Option DumpedScope
  | 0, _ => none
  | fuel + 1, sid =>
    (st.scopes[sid]?).map fun sd =>
      .mk
        (if sd.parent.isSome then "[omitted]" else "[]")
        (sd.value.map fun e => (e.1, ⟨e.2.name, dumpNode e.2.type, "[omitted]"⟩))
        (sd.type.map fun e => (e.1, ⟨e.2.name, dumpNodeOpt e.2.type, "[omitted]"⟩))
        (sd.constraints.map fun c => (dumpNode c.1, dumpNode c.2))
        ((objectEntriesOfMap sd.substitutions).map fun e => (e.1, dumpNode e.2))
        (sd.children.filterMap fun c => dumpScopeFuel st fuel c)

/-- `dumpScope` on one scope reference. -/
def dumpScope (sid : Nat) (st : CompilerState) : Option DumpedScope :=
  dumpScopeFuel st st.scopes.length sid

/-! ### Well-formedness of the arena and the ancestor chain

Every state reachable through this API satisfies: a scope's parent was
created before it, i.e. its arena index is strictly smaller.  This is the
finiteness that makes the source's parent-chain recursions terminate. -/

/-- Each scope's parent index is strictly below its own index (checked
positionally, `i` being the index of the head of the remaining list). -/
def parentsBelow : List ScopeData → Nat → Bool
  | [], _ => true
  | sd :: rest, i =>
    (match sd.parent with
     | some p => decide (p < i)
     | none => true) && parentsBelow rest (i + 1)

/-- Well-formed state: every parent link points strictly downward in the
arena. -/
def WF (st : CompilerState) : Bool :=
  parentsBelow st.scopes 0

/-- The chain of a scope and its ancestors, nearest first, with fuel. -/
def ancestorChainFuel (scopes : List ScopeData) : Nat → Nat → List Nat
  | 0, _ => []
  | fuel + 1, sid =>
    match scopes[sid]? with
    | none => []
    | some sd =>
      sid ::
        (match sd.parent with
         | some p => ancestorChainFuel scopes fuel p
         | none => [])

/-- The scope itself followed by all its ancestors up to the root. -/
def ancestorIds (sid : Nat) (st : CompilerState) : List Nat :=
  ancestorChainFuel st.scopes st.scopes.length sid

/-- Lookup of `name` directly in the `type` table of the scope at index `a`. -/
def typeBoundAt (st : CompilerState) (a : Nat) (name : String) : Option TypeSymbol :=
  (st.scopes[a]?).bind fun sd => assocGet name sd.type

/-! ### Basic lemmas about the association lists and the arena -/

theorem assocGet_assocSet_self (k : String) (v : α) :
    ∀ l : List (String × α), assocGet k (assocSet k v l) = some v := by
  intro l
  induction l with
  | nil => simp [assocGet, assocSet]
  | cons hd tl ih =>
    by_cases h : hd.1 = k
    · simp [assocGet, assocSet, h]
    · simpa [assocGet, assocSet, h] using ih

theorem parentsBelow_spec :
    ∀ (l : List ScopeData) (i j : Nat) (sd : ScopeData),
      parentsBelow l i = true → l[j]? = some sd →
      ∀ p, sd.parent = some p → p < i + j := by
  intro l
  induction l with
  | nil => intro i j sd _ hj; simp at hj
  | cons hd tl ih =>
    intro i j sd hpb hj p hp
    have hpb' := hpb
    simp only [parentsBelow, Bool.and_eq_true] at hpb'
    match j, hj with
    | 0, hj =>
      have : hd = sd := by simpa using hj
      subst this
      rcases hpb' with ⟨h1, _⟩
      rw [hp] at h1
      simpa using h1
    | j' + 1, hj =>
      have hj' : tl[j']? = some sd := by simpa using hj
      have := ih (i + 1) j' sd hpb'.2 hj' p hp
      omega

theorem wf_parent_lt {st : CompilerState} (hWF : WF st = true)
    {sid : Nat} {sd : ScopeData} (h : st.scopes[sid]? = some sd)
    {p : Nat} (hp : sd.parent = some p) : p < sid := by
  have := parentsBelow_spec st.scopes 0 sid sd hWF h p hp
  omega

/-- Fuel irrelevance for the type lookup: on a well-formed arena any fuel
strictly above the scope index computes the same answer. -/
theorem findTypeSymbolFuel_fuel {scopes : List ScopeData}
    (hWF : parentsBelow scopes 0 = true) :
    ∀ sid fuel₁ fuel₂, sid < fuel₁ → sid < fuel₂ → ∀ name,
      findTypeSymbolFuel scopes fuel₁ name sid = findTypeSymbolFuel scopes fuel₂ name sid := by
  intro sid
  induction sid using Nat.strong_induction_on with
  | _ sid ih =>
    intro fuel₁ fuel₂ h₁ h₂ name
    match fuel₁, h₁ with
    | f₁ + 1, h₁ =>
      match fuel₂, h₂ with
      | f₂ + 1, h₂ =>
        simp only [findTypeSymbolFuel]
        cases hs : scopes[sid]? with
        | none => rfl
        | some sd =>
          dsimp only
          by_cases hj : jsIn name sd.type = true
          · simp [hj]
          · simp only [if_neg hj]
            cases hp : sd.parent with
            | none => rfl
            | some p =>
              have hps : p < sid :=
                parentsBelow_spec scopes 0 sid sd hWF hs p hp |>.trans_le (by omega)
              exact ih p hps f₁ f₂ (by omega) (by omega) name

theorem findTypeSymbol_eq_fuel {st : CompilerState} (hWF : WF st = true)
    (name : String) (sid fuel : Nat) (h : sid < fuel) (hsid : sid < st.scopes.length) :
    findTypeSymbol name sid st = findTypeSymbolFuel st.scopes fuel name sid := by
  unfold findTypeSymbol
  exact findTypeSymbolFuel_fuel hWF sid st.scopes.length fuel hsid h name

/-- On a well-formed state `findTypeSymbol` satisfies the source recursion:
the `in` test on the scope's own table (prototype chain included) first,
else the parent, else not-found. -/
theorem findTypeSymbol_unfold {st : CompilerState} (hWF : WF st = true)
    (name : String) (sid : Nat) :
    findTypeSymbol name sid st =
      match st.scopes[sid]? with
      | none => none
      | some sd =>
        if jsIn name sd.type then some (jsRead name sd.type)
        else
          match sd.parent with
          | some p => findTypeSymbol name p st
          | none => none := by
  cases hs : st.scopes[sid]? with
  | none =>
    unfold findTypeSymbol
    cases hl : st.scopes.length with
    | zero => simp [findTypeSymbolFuel]
    | succ m => simp [findTypeSymbolFuel, hs]
  | some sd =>
    have hsid : sid < st.scopes.length := (List.getElem?_eq_some_iff.1 hs).1
    dsimp only
    by_cases hj : jsIn name sd.type = true
    · rw [findTypeSymbol_eq_fuel hWF name sid (sid + 1) (by omega) hsid]
      simp [findTypeSymbolFuel, hs, hj]
    · simp only [if_neg hj]
      cases hp : sd.parent with
      | none =>
        rw [findTypeSymbol_eq_fuel hWF name sid (sid + 1) (by omega) hsid]
        simp [findTypeSymbolFuel, hs, hj, hp]
      | some p =>
        have hps : p < sid := wf_parent_lt hWF hs hp
        dsimp only
        rw [findTypeSymbol_eq_fuel hWF name sid (sid + 1) (by omega) hsid,
            findTypeSymbol_eq_fuel hWF name p sid hps (by omega)]
        simp [findTypeSymbolFuel, hs, hj, hp]

/-! ### Injectivity of the decimal rendering used by the name allocator

`findAvailableName` renders the counter with `Nat.repr`.  Distinctness of the
generated names reduces to injectivity of `Nat.repr`, proved here through a
valuation that reads a big-endian digit string back into a number. -/

/-- Reads a list of decimal digit characters (big-endian) back to a number. -/
def digitsVal : List Char → Nat
  | [] => 0
  | c :: rest => (c.toNat - 48) * 10 ^ rest.length + digitsVal rest

theorem digitChar_val : ∀ d < 10, (Nat.digitChar d).toNat - 48 = d := by decide

theorem toDigitsCore_val :
    ∀ (fuel n : Nat) (ds : List Char), n < fuel →
      digitsVal (Nat.toDigitsCore 10 fuel n ds) = n * 10 ^ ds.length + digitsVal ds := by
  intro fuel
  induction fuel with
  | zero => intro n ds h; omega
  | succ f ih =>
    intro n ds h
    simp only [Nat.toDigitsCore]
    by_cases h10 : n / 10 = 0
    · rw [if_pos h10]
      have hn10 : n < 10 := by omega
      have hmod : n % 10 = n := Nat.mod_eq_of_lt hn10
      simp only [digitsVal, List.length]
      rw [digitChar_val (n % 10) (by omega), hmod]
    · rw [if_neg h10]
      rw [ih (n / 10) (Nat.digitChar (n % 10) :: ds) (by omega)]
      simp only [digitsVal, List.length]
      rw [digitChar_val (n % 10) (by omega)]
      have hn : n = 10 * (n / 10) + n % 10 := (Nat.div_add_mod n 10).symm
      conv_rhs => rw [hn]
      ring

theorem digitsVal_toDigits (n : Nat) : digitsVal (Nat.toDigits 10 n) = n := by
  have := toDigitsCore_val (n + 1) n [] (by omega)
  simpa [Nat.toDigits, digitsVal] using this

theorem natRepr_inj {m n : Nat} (h : Nat.repr m = Nat.repr n) : m = n := by
  have hdata : Nat.toDigits 10 m = Nat.toDigits 10 n := congrArg String.data h
  have := congrArg digitsVal hdata
  rwa [digitsVal_toDigits, digitsVal_toDigits] at this

theorem string_append_cancel_left {s a b : String} (h : s ++ a = s ++ b) : a = b := by
  have hd : s.data ++ a.data = s.data ++ b.data := by
    have := congrArg String.data h
    simpa using this
  have hab : a.data = b.data := List.append_cancel_left hd
  cases a; cases b
  simp only at hab
  rw [hab]

/-- `N` successive calls of the allocator with one prefix, returning the
final state and the produced names in call order. -/
def iterateNames (pfx : PrefixKind) : Nat → CompilerState → CompilerState × List String
  | 0, st => (st, [])
  | n + 1, st =>
    let out := findAvailableName pfx st
    let rest := iterateNames pfx n out.1
    (rest.1, out.2 :: rest.2)

theorem nameIds_read_bump (c : NameIds) (pfx : PrefixKind) :
    (c.bump pfx).read pfx = c.read pfx + 1 := by
  cases pfx <;> cases c <;> rfl

theorem iterateNames_names (pfx : PrefixKind) :
    ∀ (n : Nat) (st : CompilerState),
      (iterateNames pfx n st).2 =
        (List.range n).map (fun k => pfx.str ++ Nat.repr (st.nameIds.read pfx + k)) := by
  intro n
  induction n with
  | zero => intro st; simp [iterateNames]
  | succ m ih =>
    intro st
    simp only [iterateNames, findAvailableName, ih, List.range_succ_eq_map, List.map_cons,
      List.map_map, nameIds_read_bump]
    refine congrArg₂ List.cons (by rw [Nat.add_zero]) ?_
    apply List.map_congr_left
    intro k _
    simp only [Function.comp]
    rw [show st.nameIds.read pfx + 1 + k = st.nameIds.read pfx + Nat.succ k by omega]

/-! ### Auxiliary facts used by several claims -/

theorem findTypeSymbol_scopes_congr {st₁ st₂ : CompilerState} (h : st₁.scopes = st₂.scopes)
    (name : String) (sid : Nat) : findTypeSymbol name sid st₁ = findTypeSymbol name sid st₂ := by
  unfold findTypeSymbol
  rw [h]

theorem parentsBelow_set :
    ∀ (l : List ScopeData) (i j : Nat) (sd' : ScopeData),
      (∀ sd, l[j]? = some sd → sd'.parent = sd.parent) →
      parentsBelow (l.set j sd') i = parentsBelow l i := by
  intro l
  induction l with
  | nil => intro i j sd' _; rfl
  | cons hd tl ih =>
    intro i j sd' hpar
    cases j with
    | zero =>
      have : sd'.parent = hd.parent := hpar hd (by simp)
      simp [parentsBelow, this]
    | succ j' =>
      have : parentsBelow (tl.set j' sd') (i + 1) = parentsBelow tl (i + 1) :=
        ih (i + 1) j' sd' (fun sd h => hpar sd (by simpa using h))
      simp [parentsBelow, this]

theorem wf_updateScope {st : CompilerState} {sid : Nat} {f : ScopeData → ScopeData}
    (hf : ∀ sd, (f sd).parent = sd.parent) :
    WF (updateScope st sid f) = WF st := by
  unfold updateScope
  cases hsd : st.scopes[sid]? with
  | none => rfl
  | some sd =>
    show parentsBelow (st.scopes.set sid (f sd)) 0 = parentsBelow st.scopes 0
    apply parentsBelow_set
    intro sd₂ hsd₂
    rw [hsd] at hsd₂
    cases hsd₂
    exact hf sd

theorem typeBoundAt_after_insert {st : CompilerState} {sid : Nat}
    (hsid : sid < st.scopes.length) (name : String) (sym : TypeSymbol) :
    typeBoundAt
      (updateScope st sid (fun sd => { sd with type := assocSet name sym sd.type }))
      sid name = some sym := by
  have hsd : st.scopes[sid]? = some st.scopes[sid] := List.getElem?_eq_getElem hsid
  unfold updateScope
  rw [hsd]
  simp [typeBoundAt, List.getElem?_set_self (by simpa using hsid), assocGet_assocSet_self]

/-- A root scope created on the fresh module state (its index is 0). -/
def rootState : CompilerState := (createRootScope initialState).1

/-- `rootState` after declaring the value `x : number` in the root scope. -/
def xState : CompilerState :=
  (createValueSymbol "x" 0 (.nativeType .number) rootState).1

/-- `rootState` after manually registering a type symbol named `t0` while the
allocator counter still stands at 0. -/
def c9State : CompilerState :=
  (createTypeSymbol "t0" 0 none rootState).1

/-- `rootState` after the external solver writes one substitution entry
(`t0 ↦ number`) into the root scope's substitution store, through the direct
write access the spec grants it. -/
def c4State : CompilerState :=
  updateScope rootState 0
    (fun sd => { sd with substitutions := sd.substitutions.set (.str "t0") (.nativeType .number) })

theorem createTypeSymbol_success {st : CompilerState} {name : String} {sid : Nat}
    {tyOpt : Option TypeExpression} (hfn : findTypeSymbol name sid st = none) :
    createTypeSymbol name sid tyOpt st =
      (updateScope st sid (fun sd => { sd with type := assocSet name ⟨name, tyOpt, sid⟩ sd.type }),
       .ok ⟨name, tyOpt, sid⟩) := by
  unfold createTypeSymbol
  rw [hfn]

theorem findTypeSymbol_after_insert {st : CompilerState} (hWF : WF st = true)
    {sid : Nat} (hsid : sid < st.scopes.length) (name : String) (sym : TypeSymbol) :
    findTypeSymbol name sid
      (updateScope st sid (fun sd => { sd with type := assocSet name sym sd.type }))
      = some (.symbol sym) := by
  have hWF' : WF (updateScope st sid
      (fun sd => { sd with type := assocSet name sym sd.type })) = true := by
    rw [@wf_updateScope st sid (fun sd => { sd with type := assocSet name sym sd.type })
      (fun sd => rfl)]
    exact hWF
  rw [findTypeSymbol_unfold hWF']
  have hb := typeBoundAt_after_insert hsid name sym
  cases hq : (updateScope st sid
      (fun sd => { sd with type := assocSet name sym sd.type })).scopes[sid]? with
  | none => rw [typeBoundAt, hq] at hb; simp at hb
  | some sd' =>
    rw [typeBoundAt, hq] at hb
    simp only [Option.some_bind] at hb
    simp [jsIn, jsRead, hb]

/-! ### The claims -/

/-- C5: `createRootScope()` always returns a parentless scope whose type
table contains exactly the three keys `string`, `number`, `boolean`, each
bound to a NativeType expression whose kind matches the key, and whose value
table and constraint list are empty. -/
theorem c5_root_scope_seeding (st : CompilerState) :
    ((createRootScope st).1).scopes[(createRootScope st).2]? = some
      { parent := none
        children := []
        value := []
        type :=
          [("string", { name := "string", type := some (.nativeType .string),
                        scope := (createRootScope st).2 }),
           ("number", { name := "number", type := some (.nativeType .number),
                        scope := (createRootScope st).2 }),
           ("boolean", { name := "boolean", type := some (.nativeType .boolean),
                         scope := (createRootScope st).2 })]
        constraints := []
        substitutions := PlainMap.empty } := by
  simp [createRootScope, createNativeTypeSymbol, NativeKind.toKey, List.getElem?_concat_length]

/-- C6 counterexample: a `TypeExpression` key whose carried name is the
empty string refutes the claim as stated — `set` under that key followed by
`get` under the carried name does not return the stored value, because the
source's `if (!finalKey)` guard treats the empty string as falsy. -/
theorem c6_substitution_key_normalization_cex :
    (Substitution.empty.set (.texpr (.inferenceRequired "")) (.nativeType .number)).get (.str "")
      ≠ some (.nativeType .number) := by decide

/-- C6 (amended): for every TypeExpression key carrying a nonempty name `n`,
the expression key and the plain string `n` are interchangeable for `set`,
`get` and `has`, and a value stored under either is retrieved under the
other. -/
theorem c6_substitution_key_normalization (k : TypeExpression) (n : String)
    (hname : getTypeExpressionName k = some n) (hne : n ≠ "") :
    ∀ (m : Substitution) (v : TypeExpression),
      m.set (.texpr k) v = m.set (.str n) v
    ∧ m.get (.texpr k) = m.get (.str n)
    ∧ m.has (.texpr k) = m.has (.str n)
    ∧ (m.set (.texpr k) v).get (.str n) = some v
    ∧ (m.set (.str n) v).get (.texpr k) = some v := by
  intro m v
  have hk : normalizeKey (.texpr k) = some n := by simp [normalizeKey, hname, hne]
  have hn : normalizeKey (.str n) = some n := by simp [normalizeKey, hne]
  refine ⟨?_, ?_, ?_, ?_, ?_⟩ <;>
    simp [Substitution.set, Substitution.get, Substitution.has, hk, hn, assocGet_assocSet_self]

theorem c6_substitution_key_normalization_witness :
    getTypeExpressionName (.inferenceRequired "t3") = some "t3"
  ∧ ("t3" : String) ≠ ""
  ∧ (Substitution.empty.set (.texpr (.inferenceRequired "t3")) (.nativeType .number)).get
      (.str "t3") = some (.nativeType .number) :=
  ⟨rfl, by decide,
    (c6_substitution_key_normalization (.inferenceRequired "t3") "t3" rfl (by decide)
      Substitution.empty (.nativeType .number)).2.2.2.1⟩

/-- C7: a `TypeExpression` key that carries no name makes `set` a no-op that
raises nothing (the store only logs a diagnostic), makes `get` report
not-found, and makes `has` report `false`. -/
theorem c7_nameless_key_noop (k : TypeExpression) (hk : getTypeExpressionName k = none) :
    ∀ (m : Substitution) (v : TypeExpression),
      m.set (.texpr k) v = m
    ∧ m.get (.texpr k) = none
    ∧ m.has (.texpr k) = false := by
  intro m v
  have h : normalizeKey (.texpr k) = none := by simp [normalizeKey, hk]
  exact ⟨by simp [Substitution.set, h], by simp [Substitution.get, h],
    by simp [Substitution.has, h]⟩

theorem c7_nameless_key_noop_witness :
    getTypeExpressionName (.nativeType .string) = none
  ∧ (Substitution.empty.set (.texpr (.nativeType .string)) (.nativeType .number))
      = Substitution.empty :=
  ⟨rfl, (c7_nameless_key_noop (.nativeType .string) rfl
    Substitution.empty (.nativeType .number)).1⟩

/-- C3 (code bug): scopes are created with `substitutions: new Map()` — a
plain `Map`, not a `Substitution` — so the store a scope actually carries
does not normalize keys: after `set` under a TypeExpression key carrying the
name `t3`, `get` under the plain string `t3` finds nothing instead of the
stored value. -/
theorem c3_scope_substitutions_plain_map :
    (((createScope (some 0) rootState).1).scopes[1]?).map (fun sd => sd.substitutions)
      = some PlainMap.empty
  ∧ ((rootState.scopes[0]?).map (fun sd => sd.substitutions)) = some PlainMap.empty
  ∧ (PlainMap.empty.set (.texpr (.inferenceRequired "t3")) (.nativeType .number)).get
      (.str "t3") = none := by
  refine ⟨by decide, by decide, by decide⟩

/-- C4 (code bug): `dumpScope` reads the substitution entries with
`Object.entries(scope.substitutions)`, which on a `Map` yields the object's
own properties — always empty — so a store holding one entry is dumped as an
empty substitutions object. -/
theorem c4_dump_substitutions_always_empty :
    ((c4State.scopes[0]?).map (fun sd => sd.substitutions.entries.length) = some 1)
  ∧ ((dumpScope 0 c4State).map DumpedScope.substitutions = some []) := by
  constructor
  · decide
  · rfl

/-- C10: when `createValueSymbol` or `createTypeSymbol` throws the
redeclaration error, the whole state — every scope's value table, type
table, constraint list and substitution store — is exactly as before the
call (the throw happens before any write). -/
theorem c10_atomic_on_redeclaration (st : CompilerState) (name : String) (sid : Nat)
    (ty : TypeExpression) (tyOpt : Option TypeExpression) :
    (∀ e, (createValueSymbol name sid ty st).2 = .error e →
       (createValueSymbol name sid ty st).1 = st)
  ∧ (∀ e, (createTypeSymbol name sid tyOpt st).2 = .error e →
       (createTypeSymbol name sid tyOpt st).1 = st) := by
  constructor
  · intro e herr
    cases hfind : findValueSymbol name sid st with
    | some sym => simp [createValueSymbol, hfind]
    | none => simp [createValueSymbol, hfind] at herr
  · intro e herr
    cases hfind : findTypeSymbol name sid st with
    | some sym => simp [createTypeSymbol, hfind]
    | none => simp [createTypeSymbol, hfind] at herr

theorem c10_atomic_on_redeclaration_witness :
    (createValueSymbol "x" 0 (.nativeType .string) xState).2
      = .error "Cannot redeclare variable \"x\""
  ∧ (createValueSymbol "x" 0 (.nativeType .string) xState).1 = xState :=
  ⟨rfl,
    (c10_atomic_on_redeclaration xState "x" 0 (.nativeType .string) none).1
      "Cannot redeclare variable \"x\"" rfl⟩

/-- C1 (code bug): on a fresh root scope — value table empty, no ancestors,
`toString` bound nowhere — `createValueSymbol("toString", root, t)` still
throws the redeclaration error, because the lookup's `name in scope.value`
test sees the inherited `Object.prototype.toString`; this refutes the
claim's only-if direction.  `createTypeSymbol` over the type namespace
(whose table holds only `string`/`number`/`boolean`) fails identically. -/
theorem c1_redeclaration_inherited_property_bug :
    ancestorIds 0 rootState = [0]
  ∧ (rootState.scopes[0]?).map ScopeData.value = some []
  ∧ (rootState.scopes[0]?).map (fun sd => assocGet "toString" sd.type) = some none
  ∧ (createValueSymbol "toString" 0 (.nativeType .number) rootState).2
      = .error "Cannot redeclare variable \"toString\""
  ∧ (createTypeSymbol "toString" 0 none rootState).2
      = .error "Cannot redeclare variable \"toString\"" :=
  ⟨rfl, rfl, rfl, rfl, rfl⟩

/-- C2 (code bug): on a fresh root scope with an empty value table and no
parent, `findValueSymbol("toString", root)` does not report not-found: the
`in` test hits the inherited `Object.prototype.toString` and the host
function is returned (cast `as ValueSymbol`), although no scope declares
that name; the type-namespace lookup inherits the same member.  An ordinary
name such as `x` still reports not-found. -/
theorem c2_lookup_inherited_property_bug :
    (rootState.scopes[0]?).map ScopeData.value = some []
  ∧ findValueSymbol "toString" 0 rootState = some (.protoMember "toString")
  ∧ findTypeSymbol "toString" 0 rootState = some (.protoMember "toString")
  ∧ findValueSymbol "x" 0 rootState = none := by
  refine ⟨rfl, by decide, by decide, by decide⟩

/-- C8: the fresh-name allocator returns the prefix followed by the current
per-prefix counter and post-increments that counter; both counters start at
0 on the fresh module state, and any `N` successive calls with one prefix
yield `N` pairwise distinct names. -/
theorem c8_fresh_name_allocator :
    (∀ pfx, initialState.nameIds.read pfx = 0)
  ∧ (∀ (st : CompilerState) (pfx : PrefixKind),
      findAvailableName pfx st =
        ({ st with nameIds := st.nameIds.bump pfx },
         pfx.str ++ Nat.repr (st.nameIds.read pfx)))
  ∧ (∀ (st : CompilerState) (pfx : PrefixKind) (N : Nat),
      ((iterateNames pfx N st).2).length = N ∧ ((iterateNames pfx N st).2).Nodup) := by
  refine ⟨?_, ?_, ?_⟩
  · intro pfx; cases pfx <;> rfl
  · intro st pfx; rfl
  · intro st pfx N
    rw [iterateNames_names]
    refine ⟨by simp, ?_⟩
    refine List.Nodup.map ?_ (List.nodup_range N)
    intro a b h
    have h1 := string_append_cancel_left h
    have h2 := natRepr_inj h1
    omega

/-- C9 counterexample: on a scope that already holds a manually declared
type symbol named `t0` while the allocator counter is still 0,
`createTypeVariable` throws the redeclaration error instead of returning and
registering an InferenceRequired expression — refuting the claim as stated
for that scope. -/
theorem c9_create_type_variable_cex :
    (createTypeVariable 0 c9State).2 = .error "Cannot redeclare variable \"t0\"" := rfl

/-- C9 (amended): provided the freshly allocated `t`-name is not already
bound as a type symbol in the scope or an ancestor, `createTypeVariable`
returns an InferenceRequired expression carrying that name and registers it
in the scope, so `findTypeSymbol` on the returned name finds a symbol bound
to the returned expression. -/
theorem c9_create_type_variable (st : CompilerState) (hWF : WF st = true)
    (sid : Nat) (hsid : sid < st.scopes.length)
    (hfresh : findTypeSymbol ("t" ++ Nat.repr (st.nameIds.read .t)) sid st = none) :
    (createTypeVariable sid st).2
        = .ok (.inferenceRequired ("t" ++ Nat.repr (st.nameIds.read .t)))
  ∧ findTypeSymbol ("t" ++ Nat.repr (st.nameIds.read .t)) sid (createTypeVariable sid st).1
      = some (.symbol
          { name := "t" ++ Nat.repr (st.nameIds.read .t)
            type := some (.inferenceRequired ("t" ++ Nat.repr (st.nameIds.read .t)))
            scope := sid }) := by
  have hfresh' : findTypeSymbol ("t" ++ Nat.repr (st.nameIds.read .t)) sid
      { st with nameIds := st.nameIds.bump .t } = none := by
    rw [findTypeSymbol_scopes_congr rfl]
    exact hfresh
  have hctv : createTypeVariable sid st =
      ((createTypeSymbol ("t" ++ Nat.repr (st.nameIds.read .t)) sid
          (some (.inferenceRequired ("t" ++ Nat.repr (st.nameIds.read .t))))
          { st with nameIds := st.nameIds.bump .t }).1,
       ((createTypeSymbol ("t" ++ Nat.repr (st.nameIds.read .t)) sid
          (some (.inferenceRequired ("t" ++ Nat.repr (st.nameIds.read .t))))
          { st with nameIds := st.nameIds.bump .t }).2).map
         (fun _ => .inferenceRequired ("t" ++ Nat.repr (st.nameIds.read .t)))) := rfl
  rw [hctv, createTypeSymbol_success hfresh']
  refine ⟨rfl, ?_⟩
  dsimp only
  exact @findTypeSymbol_after_insert { st with nameIds := st.nameIds.bump .t } hWF sid hsid _ _

theorem c9_create_type_variable_witness :
    WF rootState = true
  ∧ 0 < rootState.scopes.length
  ∧ findTypeSymbol ("t" ++ Nat.repr (rootState.nameIds.read .t)) 0 rootState = none
  ∧ (createTypeVariable 0 rootState).2
      = .ok (.inferenceRequired ("t" ++ Nat.repr (rootState.nameIds.read .t))) :=
  ⟨by decide, by decide, by decide,
    (c9_create_type_variable rootState (by decide) 0 (by decide) (by decide)).1⟩

end FliteScript
